import Mathlib

/-!
Verification development for the depriv-bot repository.

Shallow embedding of the repository's trading-bot scripts:
* the offline multi-timeframe backtester (third script in `src/index.js`):
  `findLatestAtOrBefore`, `isBullishEngulf`/`isBearishEngulf`, `tryEnterTrade`,
  `managePosition`, the chronological backtest loop and the end-of-data force close;
* the live bot (`src/unnamed/part_001`): `tryEnterTrade`,
  `managePositionOn5mClose`, and the websocket `ohlc` candle merge;
* swing and structure detection (`src/index3.js`, `src/unnamed/part_002`):
  `isSwingHigh`, `isSwingLow`, `detectRawSwings`, `detectBOSFromSwings`.

Prices are modelled as rationals (`ℚ`), epochs as integers, JS `null` as
`Option`.  Indicator values produced by the external `technicalindicators`
npm package (EMA / Bollinger Bands) are treated as inputs, as are the
signal-detection results where only their shape matters to a claim.
-/

namespace DeprivBot

/-- A candle bar, `{epoch, open, high, low, close}` as parsed by
`parseCSV` / the websocket handlers.  The `open` field is renamed `opn`
because `open` is a Lean keyword. -/
structure Candle where
  epoch : Int
  opn : ℚ
  high : ℚ
  low : ℚ
  close : ℚ
  deriving DecidableEq, Repr, Inhabited

/-- Recursive core of `findLatestAtOrBefore` (src/index.js lines 267-275):
binary search over `[lo, hi]` for the latest candle with `epoch ≤ target`,
carrying the best answer found so far.  The structural `fuel` argument only
bounds the loop: the live interval `hi + 1 - lo` starts at the list length
and strictly shrinks on every iteration, so with fuel `length + 1` the fuel
is never exhausted and this computes exactly the source's `while` loop. -/
def findLatestGo (candles : List Candle) (epoch : Int) :
    Nat → Int → Int → Option Candle → Option Candle
  | 0, _, _, ans => ans
  | fuel + 1, lo, hi, ans =>
    if lo ≤ hi then
      let mid := (lo + hi) / 2
      match candles[mid.toNat]? with
      | none => ans
      | some c =>
        if c.epoch ≤ epoch then findLatestGo candles epoch fuel (mid + 1) hi (some c)
        else findLatestGo candles epoch fuel lo (mid - 1) ans
    else ans

/-- `findLatestAtOrBefore(candles, epoch)` (src/index.js lines 267-275). -/
def findLatestAtOrBefore (candles : List Candle) (epoch : Int) : Option Candle :=
  findLatestGo candles epoch (candles.length + 1) 0 (candles.length - 1) none

/-- `isBullishEngulf(curr, prev)` (src/index.js lines 253-255; identically in
src/unnamed/part_001 lines 108-114). -/
def isBullishEngulf (curr prev : Candle) : Bool :=
  curr.close > curr.opn && prev.close < prev.opn &&
    curr.close ≥ prev.opn && curr.opn ≤ prev.close

/-- `isBearishEngulf(curr, prev)` (src/index.js lines 256-258; identically in
src/unnamed/part_001 lines 116-122). -/
def isBearishEngulf (curr prev : Candle) : Bool :=
  curr.close < curr.opn && prev.close > prev.opn &&
    curr.opn ≥ prev.close && curr.close ≤ prev.opn

/-- Modelled from the spec: the stricter full-range engulfing variant of
§4.3 ("additionally requires `curr.high ≥ prev.high` and
`curr.low ≤ prev.low`").  No such variant exists under `src/`; only the
body-only `isBullishEngulf` is implemented there. -/
def isBullishEngulfFullRange (curr prev : Candle) : Bool :=
  isBullishEngulf curr prev && curr.high ≥ prev.high && curr.low ≤ prev.low

/-- `isSwingHigh(candles, i, size)` (src/index3.js lines 9-14; identically in
src/unnamed/part_002 lines 15-20): inside the valid index range, no bar of the
symmetric window `[i-size, i+size]` has a strictly greater high. -/
def isSwingHigh (candles : List Candle) (i size : Nat) : Bool :=
  if i < size ∨ candles.length ≤ i + size then false
  else
    (List.range (2 * size + 1)).all fun d =>
      ¬ ((candles.getD (i - size + d) default).high > (candles.getD i default).high)

/-- `isSwingLow(candles, i, size)` (src/index3.js lines 16-21; identically in
src/unnamed/part_002 lines 21-26). -/
def isSwingLow (candles : List Candle) (i size : Nat) : Bool :=
  if i < size ∨ candles.length ≤ i + size then false
  else
    (List.range (2 * size + 1)).all fun d =>
      ¬ ((candles.getD (i - size + d) default).low < (candles.getD i default).low)

/-- Swing kind tag, `"H"` / `"L"` in the source. -/
inductive SwingType where
  | H
  | L
  deriving DecidableEq, Repr

/-- A raw swing `{type, index, price, time}` (src/unnamed/part_002 lines 53-55).
Times are carried abstractly as the bar epoch. -/
structure Swing where
  type : SwingType
  index : Nat
  price : ℚ
  time : Int
  deriving DecidableEq, Repr

/-- `SWING_SIZE` (src/unnamed/part_002 line 9, src/index3.js line 6). -/
def SWING_SIZE : Nat := 3

/-- `detectRawSwings(candles)` (src/unnamed/part_002 lines 49-59): scan the
indices `SWING_SIZE ≤ i < length - SWING_SIZE`, emitting an `H` swing and/or
an `L` swing.  The final `sort` by index is the identity here since indices
are scanned in ascending order. -/
def detectRawSwings (candles : List Candle) : List Swing :=
  (List.range' SWING_SIZE (candles.length - 2 * SWING_SIZE)).foldl
    (fun acc i =>
      let acc :=
        if isSwingHigh candles i SWING_SIZE then
          acc ++ [⟨SwingType.H, i, (candles.getD i default).high, (candles.getD i default).epoch⟩]
        else acc
      if isSwingLow candles i SWING_SIZE then
        acc ++ [⟨SwingType.L, i, (candles.getD i default).low, (candles.getD i default).epoch⟩]
      else acc)
    []

/-- Carried trend state of the structure classifier
(`currentTrend` in src/unnamed/part_002 line 66, `null` modelled as `none`). -/
inductive Trend where
  | bullish
  | bearish
  deriving DecidableEq, Repr

/-- Structure event kinds emitted by `detectBOSFromSwings`. -/
inductive EventType where
  | BOS_UP
  | BOS_DOWN
  | CHoCH_UP
  | CHoCH_DOWN
  deriving DecidableEq, Repr

/-- A structure event (src/unnamed/part_002 lines 96-105 / 138-147);
times are carried as epochs. -/
structure StructureEvent where
  type : EventType
  time : Int
  startTime : Int
  endTime : Int
  startPrice : ℚ
  endPrice : ℚ
  legPts : ℚ
  dirCandles : Nat
  deriving DecidableEq, Repr

/-- `MIN_IMPULSE_CANDLES` (src/unnamed/part_002 line 10). -/
def MIN_IMPULSE_CANDLES : Nat := 2

/-- `MIN_LEG_PTS` (src/unnamed/part_002 line 11). -/
def MIN_LEG_PTS : ℚ := 0

/-- The `dirCandles` count of an upward leg (src/unnamed/part_002 lines 88-91):
bars `k ∈ [startIdx+1, endIdx]` whose close exceeds the previous close. -/
def dirCandlesUp (candles : List Candle) (startIdx endIdx : Nat) : Nat :=
  ((List.range' (startIdx + 1) (endIdx - startIdx)).filter
    (fun k => (candles.getD k default).close > (candles.getD (k - 1) default).close)).length

/-- The `dirCandles` count of a downward leg (src/unnamed/part_002 lines 130-133). -/
def dirCandlesDown (candles : List Candle) (startIdx endIdx : Nat) : Nat :=
  ((List.range' (startIdx + 1) (endIdx - startIdx)).filter
    (fun k => (candles.getD k default).close < (candles.getD (k - 1) default).close)).length

/-- Walking state of `detectBOSFromSwings` (src/unnamed/part_002 lines 63-66). -/
structure BOSState where
  events : List StructureEvent
  lastHighSeen : Option Swing
  lastLowSeen : Option Swing
  currentTrend : Option Trend
  deriving DecidableEq, Repr

/-- One iteration of the `detectBOSFromSwings` loop body
(src/unnamed/part_002 lines 68-153) on swing `s`. `prev` is the reversed list
of swings already processed, so `prev.find? (·.type = L)` is the source's
backward scan `for (j = i-1; j >= 0; j--)` for the most recent prior Low
(and symmetrically for Highs). -/
def bosStep (candles : List Candle) (st : BOSState) (prev : List Swing)
    (s : Swing) : BOSState :=
  match s.type with
  | SwingType.H =>
    let st' : BOSState :=
      match st.lastHighSeen with
      | some lastHighSeen =>
        if s.price > lastHighSeen.price then
          match prev.find? (fun w => w.type == SwingType.L) with
          | some prevLow =>
            let startIdx := prevLow.index
            let endIdx := s.index
            let startPrice := prevLow.price
            let endPrice := s.price
            let legPts := endPrice - startPrice
            let dirCandles := dirCandlesUp candles startIdx endIdx
            if dirCandles ≥ MIN_IMPULSE_CANDLES ∨ legPts ≥ MIN_LEG_PTS then
              let eventType :=
                if st.currentTrend = some Trend.bearish then EventType.CHoCH_UP
                else EventType.BOS_UP
              { st with
                events := st.events ++
                  [⟨eventType, s.time, (candles.getD startIdx default).epoch,
                    (candles.getD endIdx default).epoch, startPrice, endPrice,
                    legPts, dirCandles⟩],
                currentTrend := some Trend.bullish }
            else st
          | none => st
        else st
      | none => st
    { st' with lastHighSeen := some s }
  | SwingType.L =>
    let st' : BOSState :=
      match st.lastLowSeen with
      | some lastLowSeen =>
        if s.price < lastLowSeen.price then
          match prev.find? (fun w => w.type == SwingType.H) with
          | some prevHigh =>
            let startIdx := prevHigh.index
            let endIdx := s.index
            let startPrice := prevHigh.price
            let endPrice := s.price
            let legPts := startPrice - endPrice
            let dirCandles := dirCandlesDown candles startIdx endIdx
            if dirCandles ≥ MIN_IMPULSE_CANDLES ∨ legPts ≥ MIN_LEG_PTS then
              let eventType :=
                if st.currentTrend = some Trend.bullish then EventType.CHoCH_DOWN
                else EventType.BOS_DOWN
              { st with
                events := st.events ++
                  [⟨eventType, s.time, (candles.getD startIdx default).epoch,
                    (candles.getD endIdx default).epoch, startPrice, endPrice,
                    legPts, dirCandles⟩],
                currentTrend := some Trend.bearish }
            else st
          | none => st
        else st
      | none => st
    { st' with lastLowSeen := some s }

/-- Tail of the `detectBOSFromSwings` loop, threading the reversed prefix of
processed swings. -/
def bosGo (candles : List Candle) (st : BOSState) (prev : List Swing) :
    List Swing → BOSState
  | [] => st
  | s :: rest => bosGo candles (bosStep candles st prev s) (s :: prev) rest

/-- `detectBOSFromSwings(swings, candles)` (src/unnamed/part_002 lines 62-157). -/
def detectBOSFromSwings (swings : List Swing) (candles : List Candle) :
    List StructureEvent :=
  (bosGo candles ⟨[], none, none, none⟩ [] swings).events

/-- Trade direction, the `'LONG'` / `'SHORT'` string tags of the source. -/
inductive Bias where
  | LONG
  | SHORT
  deriving DecidableEq, Repr

/-- Strategy module, the `'MR'` / `'CONT'` string tags of the source. -/
inductive Module where
  | MR
  | CONT
  deriving DecidableEq, Repr

/-- Higher timeframe name, the `'2H'` / `'1H'` string tags of the source. -/
inductive TFName where
  | H2
  | H1
  deriving DecidableEq, Repr

/-- A Bollinger Bands sample as returned by the external `technicalindicators`
library: `{middle, upper, lower}`, always fully populated, so the source's
`bb.middle ?? ...` fallbacks never fire. -/
structure BB where
  middle : ℚ
  upper : ℚ
  lower : ℚ
  deriving DecidableEq, Repr

namespace Backtest

/-- A detected higher-timeframe signal (src/index.js lines 321-324). -/
structure HTFSig where
  module : Module
  bias : Bias
  htfCandle : Candle
  bb : BB
  ema : ℚ
  tfName : TFName
  deriving DecidableEq, Repr

/-- The `htfRef` field of a position (src/index.js line 361). -/
structure HTFRef where
  tf : TFName
  epoch : Int
  deriving DecidableEq, Repr

/-- The open position record (src/index.js line 361); `timeEnter` is carried
as the raw entry epoch instead of its ISO rendering. -/
structure Position where
  side : Bias
  entry : ℚ
  stop : ℚ
  target : ℚ
  qty : ℚ
  module : Module
  htfRef : HTFRef
  timeEnter : Int
  deriving DecidableEq, Repr

/-- Exit reasons recorded in the trade ledger (src/index.js lines 374-378, 404). -/
inductive Reason where
  | STOP
  | TARGET
  | FORCE_CLOSE_END
  deriving DecidableEq, Repr

/-- A closed trade record `{...position, exit, reason, pnl, timeExit}`
(src/index.js lines 384, 404); the JS object spread is modelled by nesting
the position. -/
structure Trade where
  pos : Position
  exit : ℚ
  reason : Reason
  pnl : ℚ
  timeExit : Int
  deriving DecidableEq, Repr

/-- An entry in the `executedSignals` set: the source's string key
`` `${tfName}_${epoch}_${bias}` `` (src/index.js line 347), modelled as the
triple it encodes (the encoding is injective: timeframe names and biases are
fixed tags and the epoch is a number). -/
abbrev SigKey := TFName × Int × Bias

/-- The mutable backtest state (src/index.js lines 300-301): `account`,
`position`, `trades`, `dailyTrades`, `lastTradeDay`, `consecLosses`,
`executedSignals`. -/
structure BTState where
  account : ℚ
  position : Option Position
  trades : List Trade
  dailyTrades : Nat
  lastTradeDay : Option Int
  consecLosses : Nat
  executedSignals : List SigKey
  deriving DecidableEq, Repr

/-- `MAX_TRADES_PER_DAY` (src/index.js line 235). -/
def MAX_TRADES_PER_DAY : Nat := 2

/-- `RISK_PCT` (src/index.js line 236). -/
def RISK_PCT : ℚ := 1 / 100

/-- `RR_TARGET` (src/index.js line 237). -/
def RR_TARGET : ℚ := 2

/-- `getYYYYMMDD(e)` (src/index.js lines 242-245) renders the UTC calendar
date of an epoch; two epochs render equal iff they lie in the same UTC day,
i.e. iff their floored division by 86400 agrees, which is what we carry. -/
def getYYYYMMDD (e : Int) : Int := e / 86400

/-- The initial backtest state (src/index.js lines 300-301), with the
starting balance (10000 in the source) kept as a parameter. -/
def initState (account : ℚ) : BTState :=
  ⟨account, none, [], 0, none, 0, []⟩

/-- `tryEnterTrade(epoch)` (src/index.js lines 329-364).  The HTF signal
detection `detectHTFSignal` reads only the immutable higher-timeframe candle
arrays and the indicator maps built once before the loop (external
`technicalindicators` library), so it is passed in as a pure function
`sig : Int → Option HTFSig`.  The JS `isFinite(qty)` test cannot fail over
`ℚ`; the remaining rejection is `qty ≤ 0`. -/
def tryEnterTrade (sig : Int → Option HTFSig) (candles5m : List Candle)
    (s : BTState) (epoch : Int) : BTState :=
  if s.position.isSome then s
  else
    let today := getYYYYMMDD epoch
    let s1 :=
      if s.lastTradeDay ≠ some today then
        { s with dailyTrades := 0, lastTradeDay := some today }
      else s
    if MAX_TRADES_PER_DAY ≤ s1.dailyTrades ∨ 2 ≤ s1.consecLosses then s1
    else
      match sig epoch with
      | none => s1
      | some htfSig =>
        match findLatestAtOrBefore candles5m epoch with
        | none => s1
        | some c5 =>
          match candles5m.findIdx? (fun c => c.epoch == c5.epoch) with
          | none => s1
          | some 0 => s1
          | some (_ + 1) =>
            let etfBias : Option Bias :=
              if htfSig.bias = Bias.LONG then
                if c5.close > c5.opn then some Bias.LONG else none
              else
                if c5.close < c5.opn then some Bias.SHORT else none
            match etfBias with
            | none => s1
            | some b =>
              if b ≠ htfSig.bias then s1
              else
                let sigKey : SigKey := (htfSig.tfName, htfSig.htfCandle.epoch, htfSig.bias)
                if sigKey ∈ s1.executedSignals then s1
                else
                  let s2 := { s1 with executedSignals := sigKey :: s1.executedSignals }
                  let entry := c5.close
                  let H := htfSig.htfCandle.high
                  let L := htfSig.htfCandle.low
                  let stop := if htfSig.bias = Bias.LONG then L else H
                  let target :=
                    if htfSig.module = Module.MR then htfSig.bb.middle
                    else if htfSig.bias = Bias.LONG then entry + RR_TARGET * (entry - L)
                    else entry - RR_TARGET * (H - entry)
                  let riskPerTrade := s2.account * RISK_PCT
                  let riskPerUnit := |entry - stop|
                  if riskPerUnit ≤ 0 then s2
                  else
                    let qty := riskPerTrade / riskPerUnit
                    if qty ≤ 0 then s2
                    else
                      { s2 with
                        position := some ⟨htfSig.bias, entry, stop, target, qty,
                          htfSig.module, ⟨htfSig.tfName, htfSig.htfCandle.epoch⟩, epoch⟩,
                        dailyTrades := s2.dailyTrades + 1 }

/-- `managePosition(epoch)` (src/index.js lines 367-389).  The exit test
reads only the bar's `close` (`px = c5.close`); the stop branch is the
`if`, the target branch the `else if`. -/
def managePosition (candles5m : List Candle) (s : BTState) (epoch : Int) :
    BTState :=
  match s.position with
  | none => s
  | some position =>
    match findLatestAtOrBefore candles5m epoch with
    | none => s
    | some c5 =>
      let px := c5.close
      let exitHit : Option (ℚ × Reason) :=
        if position.side = Bias.LONG then
          if px ≤ position.stop then some (position.stop, Reason.STOP)
          else if px ≥ position.target then some (position.target, Reason.TARGET)
          else none
        else
          if px ≥ position.stop then some (position.stop, Reason.STOP)
          else if px ≤ position.target then some (position.target, Reason.TARGET)
          else none
      match exitHit with
      | none => s
      | some (price, reason) =>
        let pnl :=
          if position.side = Bias.LONG then price - position.entry
          else position.entry - price
        let tradePnL := pnl * position.qty
        { s with
          account := s.account + tradePnL,
          trades := s.trades ++ [⟨position, price, reason, tradePnL, epoch⟩],
          consecLosses := if tradePnL < 0 then s.consecLosses + 1 else 0,
          position := none }

/-- One iteration of the chronological backtest loop
(src/index.js lines 392-396): `managePosition(epoch)` first, then
`if (!position) tryEnterTrade(epoch)`. -/
def btStep (sig : Int → Option HTFSig) (candles5m : List Candle)
    (s : BTState) (c : Candle) : BTState :=
  let s1 := managePosition candles5m s c.epoch
  if s1.position.isSome then s1 else tryEnterTrade sig candles5m s1 c.epoch

/-- The end-of-data force close (src/index.js lines 399-406).  With an empty
candle list and an open position the source would fault on
`candles5m[length-1]`; that state is unreachable from an initial flat state,
and is modelled as a no-op.  The source runs this at the very end of the
program and leaves the `position` variable dangling; the embedding clears
it, matching the data model's contract that a position is destroyed on its
forced close. -/
def forceClose (candles5m : List Candle) (s : BTState) : BTState :=
  match s.position, candles5m.getLast? with
  | some position, some lastC =>
    let lastPx := lastC.close
    let pnl :=
      if position.side = Bias.LONG then lastPx - position.entry
      else position.entry - lastPx
    let tradePnL := pnl * position.qty
    { s with
      account := s.account + tradePnL,
      trades := s.trades ++ [⟨position, lastPx, Reason.FORCE_CLOSE_END, tradePnL, lastC.epoch⟩],
      position := none }
  | _, _ => s

/-- The whole simulated run (src/index.js lines 392-406): fold the loop body
over the 5-minute series, then force-close at end of data. -/
def runBacktest (sig : Int → Option HTFSig) (candles5m : List Candle)
    (s0 : BTState) : BTState :=
  forceClose candles5m (candles5m.foldl (btStep sig candles5m) s0)

/-- The higher-timeframe signal key of a position, as recorded in
`executedSignals` when it was opened (src/index.js lines 347, 361). -/
def posKey (p : Position) : SigKey := (p.htfRef.tf, p.htfRef.epoch, p.side)

/-- The signal key of a ledger record. -/
def tradeKey (t : Trade) : SigKey := posKey t.pos

/-- All signal keys of entries made so far: one per closed trade in the
ledger plus the open position's, if any. -/
def allKeys (s : BTState) : List SigKey :=
  s.trades.map tradeKey ++ s.position.toList.map posKey

/-- The running pnl total of the trade ledger. -/
def ledger (s : BTState) : ℚ := (s.trades.map (fun t => t.pnl)).sum

/-- The date-rollover prefix of `tryEnterTrade` (src/index.js line 332),
split out for proofs: `tryEnterTrade` is definitionally the rollover
followed by `enterCore` (see `tryEnterTrade_eq`). -/
def rollDay (s : BTState) (e : Int) : BTState :=
  if s.lastTradeDay ≠ some (getYYYYMMDD e) then
    { s with dailyTrades := 0, lastTradeDay := some (getYYYYMMDD e) }
  else s

/-- The remainder of `tryEnterTrade` after the flat-check and the date
rollover (src/index.js lines 333-363), on an arbitrary state `t`; proof
decomposition of `tryEnterTrade`, see `tryEnterTrade_eq`. -/
def enterCore (sig : Int → Option HTFSig) (candles5m : List Candle)
    (t : BTState) (epoch : Int) : BTState :=
  if MAX_TRADES_PER_DAY ≤ t.dailyTrades ∨ 2 ≤ t.consecLosses then t
  else
    match sig epoch with
    | none => t
    | some htfSig =>
      match findLatestAtOrBefore candles5m epoch with
      | none => t
      | some c5 =>
        match candles5m.findIdx? (fun c => c.epoch == c5.epoch) with
        | none => t
        | some 0 => t
        | some (_ + 1) =>
          let etfBias : Option Bias :=
            if htfSig.bias = Bias.LONG then
              if c5.close > c5.opn then some Bias.LONG else none
            else
              if c5.close < c5.opn then some Bias.SHORT else none
          match etfBias with
          | none => t
          | some b =>
            if b ≠ htfSig.bias then t
            else
              let sigKey : SigKey := (htfSig.tfName, htfSig.htfCandle.epoch, htfSig.bias)
              if sigKey ∈ t.executedSignals then t
              else
                let s2 := { t with executedSignals := sigKey :: t.executedSignals }
                let entry := c5.close
                let H := htfSig.htfCandle.high
                let L := htfSig.htfCandle.low
                let stop := if htfSig.bias = Bias.LONG then L else H
                let target :=
                  if htfSig.module = Module.MR then htfSig.bb.middle
                  else if htfSig.bias = Bias.LONG then entry + RR_TARGET * (entry - L)
                  else entry - RR_TARGET * (H - entry)
                let riskPerTrade := s2.account * RISK_PCT
                let riskPerUnit := |entry - stop|
                if riskPerUnit ≤ 0 then s2
                else
                  let qty := riskPerTrade / riskPerUnit
                  if qty ≤ 0 then s2
                  else
                    { s2 with
                      position := some ⟨htfSig.bias, entry, stop, target, qty,
                        htfSig.module, ⟨htfSig.tfName, htfSig.htfCandle.epoch⟩, epoch⟩,
                      dailyTrades := s2.dailyTrades + 1 }

/-- The key invariant: the entry keys present in the ledger and the open
position are duplicate-free, and all of them have been recorded in
`executedSignals`. -/
def KeysGood (s : BTState) : Prop :=
  (allKeys s).Nodup ∧ ∀ k ∈ allKeys s, k ∈ s.executedSignals

end Backtest

namespace Live

/-- Timeframe names of the live bot, `'2H' | '1H' | '15M' | '5M'`
(src/unnamed/part_001 line 85). -/
inductive TF where
  | H2
  | H1
  | M15
  | M5
  deriving DecidableEq, Repr

/-- A detected HTF signal of the live bot (src/unnamed/part_001
lines 154-159): `{tfName, mode, bias, bb, ema, htfCandle}`. -/
structure HTFSig where
  tfName : TF
  mode : Module
  bias : Bias
  bb : BB
  ema : ℚ
  htfCandle : Candle
  deriving DecidableEq, Repr

/-- The live position's `htfRef` (src/unnamed/part_001 line 217). -/
structure HTFRef where
  tf : TF
  epoch : Int
  deriving DecidableEq, Repr

/-- The live open position (src/unnamed/part_001 line 217); `time` is
carried as the entry bar epoch instead of its local-time rendering. -/
structure Position where
  side : Bias
  entry : ℚ
  time : Int
  stop : ℚ
  target : ℚ
  qty : ℚ
  module : Module
  htfRef : HTFRef
  deriving DecidableEq, Repr

/-- The environment-derived configuration of the live bot
(src/unnamed/part_001 lines 63-69). -/
structure Config where
  riskPct : ℚ
  maxTradesPerSession : Nat
  lossPauseAfter : Nat
  bbPeriod : Nat
  htfEma : Nat
  deriving DecidableEq, Repr

/-- The live bot's mutable state: the candle buffers (line 88) and the
session / risk variables (lines 93-97). -/
structure LiveState where
  accountBalance : ℚ
  tradesThisSession : Nat
  consecutiveLosses : Nat
  pausedForSession : Bool
  position : Option Position
  candles : TF → List Candle

/-- `tryEnterTrade(htfSig, etfBias)` (src/unnamed/part_001 lines 179-221).
The JS `!isFinite(qty)` test cannot fail over `ℚ`; `qty` is `0` when
`riskPerUnit ≤ 0` exactly as in the source's conditional expression. -/
def tryEnterTrade (cfg : Config) (htfSig : Option HTFSig)
    (etfBias : Option Bias) (s : LiveState) : LiveState :=
  match htfSig, etfBias with
  | some htfSig, some etfBias =>
    if s.pausedForSession = true ∨ s.position.isSome
        ∨ cfg.maxTradesPerSession ≤ s.tradesThisSession then s
    else if htfSig.bias ≠ etfBias then s
    else
      match (s.candles TF.M5).getLast? with
      | none => s
      | some last5 =>
        let entry := last5.close
        let entryTime := last5.epoch
        let H := htfSig.htfCandle.high
        let L := htfSig.htfCandle.low
        let stop :=
          if etfBias = Bias.LONG then min L entry - |entry| * (1 / 10000)
          else max H entry + |entry| * (1 / 10000)
        let target :=
          if htfSig.mode = Module.MR then htfSig.bb.middle
          else if etfBias = Bias.LONG then entry + 2 * (entry - stop)
          else entry - 2 * (stop - entry)
        let module := htfSig.mode
        let riskPerTrade := s.accountBalance * cfg.riskPct
        let riskPerUnit := if etfBias = Bias.LONG then entry - stop else stop - entry
        let qty := if riskPerUnit > 0 then riskPerTrade / riskPerUnit else 0
        if qty ≤ 0 then s
        else
          { s with
            position := some ⟨etfBias, entry, entryTime, stop, target, qty,
              module, ⟨htfSig.tfName, htfSig.htfCandle.epoch⟩⟩,
            tradesThisSession := s.tradesThisSession + 1 }
  | _, _ => s

/-- `managePositionOn5mClose()` (src/unnamed/part_001 lines 224-251).  The
exit test reads only the latest 5M bar's `close`, stop branch before target
branch; on exit the loss streak is updated (`tradePnL > 0` resets, anything
else increments) and the session pause latches on once the streak reaches
`LOSS_PAUSE_AFTER`. -/
def managePositionOn5mClose (cfg : Config) (s : LiveState) : LiveState :=
  match s.position with
  | none => s
  | some position =>
    match (s.candles TF.M5).getLast? with
    | none => s
    | some last5 =>
      let px := last5.close
      let exitHit : Option ℚ :=
        if position.side = Bias.LONG then
          if px ≤ position.stop then some position.stop
          else if px ≥ position.target then some position.target
          else none
        else
          if px ≥ position.stop then some position.stop
          else if px ≤ position.target then some position.target
          else none
      match exitHit with
      | none => s
      | some price =>
        let pnlPerUnit :=
          if position.side = Bias.LONG then price - position.entry
          else position.entry - price
        let tradePnL := pnlPerUnit * position.qty
        let consecutiveLosses :=
          if tradePnL > 0 then 0 else s.consecutiveLosses + 1
        { s with
          accountBalance := s.accountBalance + tradePnL,
          consecutiveLosses := consecutiveLosses,
          pausedForSession :=
            if cfg.lossPauseAfter ≤ consecutiveLosses then true
            else s.pausedForSession,
          position := none }

/-- The candle merge of the websocket `ohlc` branch (src/unnamed/part_001
lines 322-330): replace the last bar in place when the incoming bar shares
its epoch, otherwise push it and evict the oldest bar past the 1000-bar cap.
The boolean reports whether the push branch ran (a new bar closed). -/
def mergeCandle (buf : List Candle) (newC : Candle) : List Candle × Bool :=
  if (buf.getLast?).any (fun last => last.epoch == newC.epoch) then
    (buf.dropLast ++ [newC], false)
  else
    let buf1 := buf ++ [newC]
    (if 1000 < buf1.length then buf1.tail else buf1, true)

/-- `readyToEvaluate()` (src/unnamed/part_001 lines 254-261). -/
def readyToEvaluate (cfg : Config) (s : LiveState) : Bool :=
  let minHTF := max cfg.bbPeriod cfg.htfEma + 2
  (decide (minHTF ≤ (s.candles TF.H2).length)
      || decide (minHTF ≤ (s.candles TF.H1).length))
    && decide (2 ≤ (s.candles TF.M15).length)
    && decide (2 ≤ (s.candles TF.M5).length)

/-- `evaluateSignalsWithHeartbeat()` (src/unnamed/part_001 lines 263-281),
minus console output.  The results of `detectHTFSignal` and
`etfAlignedEngulf` — which run the external indicator library over the
buffers — are supplied as inputs; the handler enters only when both are
present with matching bias, and `tryEnterTrade` re-checks every gate. -/
def evaluateSignals (cfg : Config) (htfSig : Option HTFSig)
    (etfBias : Option Bias) (s : LiveState) : LiveState :=
  if readyToEvaluate cfg s then
    match htfSig, etfBias with
    | some hs, some eb =>
      if hs.bias = eb then tryEnterTrade cfg (some hs) (some eb) s else s
    | _, _ => s
  else s

/-- Inbound feed messages that mutate the live state
(src/unnamed/part_001 lines 305-335): a full history load (`candles`
branch) or a streaming bar (`ohlc` branch).  Each carries the
indicator-dependent signal results the subsequent evaluation pass would
compute, as oracle inputs. -/
inductive LEvent where
  | history (tf : TF) (cs : List Candle) (htfSig : Option HTFSig) (etfBias : Option Bias)
  | ohlc (tf : TF) (c : Candle) (htfSig : Option HTFSig) (etfBias : Option Bias)

/-- One websocket message dispatch (src/unnamed/part_001 lines 305-335):
update the targeted buffer; on a newly closed 5M bar run
`managePositionOn5mClose`; then run the evaluation pass. -/
def liveStep (cfg : Config) (s : LiveState) : LEvent → LiveState
  | LEvent.history tf cs htfSig etfBias =>
    let s1 := { s with candles := fun t => if t = tf then cs else s.candles t }
    evaluateSignals cfg htfSig etfBias s1
  | LEvent.ohlc tf c htfSig etfBias =>
    let merged := mergeCandle (s.candles tf) c
    let s1 := { s with candles := fun t => if t = tf then merged.1 else s.candles t }
    let s2 :=
      if merged.2 && (tf == TF.M5) then managePositionOn5mClose cfg s1 else s1
    evaluateSignals cfg htfSig etfBias s2

/-- A whole live session: fold the message dispatcher over the inbound
message sequence. -/
def runLive (cfg : Config) (s : LiveState) (evs : List LEvent) : LiveState :=
  evs.foldl (liveStep cfg) s

end Live

/-! ### Concrete inputs used by counterexamples and witnesses -/

/-- Scenario B's previous bar: `{open:10, close:9.5, high:11, low:9}`. -/
def prevB : Candle := ⟨0, 10, 11, 9, 19 / 2⟩

/-- Scenario B's current bar: `{open:9, close:11, high:12, low:8}`. -/
def currB : Candle := ⟨1, 9, 12, 8, 11⟩

/-- Seven identical (flat) bars: every window comparison ties. -/
def flat7 : List Candle :=
  [⟨0, 5, 5, 5, 5⟩, ⟨1, 5, 5, 5, 5⟩, ⟨2, 5, 5, 5, 5⟩, ⟨3, 5, 5, 5, 5⟩,
   ⟨4, 5, 5, 5, 5⟩, ⟨5, 5, 5, 5, 5⟩, ⟨6, 5, 5, 5, 5⟩]

/-- A swing sequence: High at 10, Lows at 5 then 4 (a downward break that
sets the trend bearish), then a High at 12 (an upward break fired while the
carried trend is bearish). -/
def swingsC4 : List Swing :=
  [⟨SwingType.H, 1, 10, 1⟩, ⟨SwingType.L, 2, 5, 2⟩,
   ⟨SwingType.L, 3, 4, 3⟩, ⟨SwingType.H, 6, 12, 6⟩]

/-- Backing bars for `swingsC4`: closes fall along the downward leg
(indices 1→3) and rise along the upward leg (indices 3→6), so both legs
satisfy the `dirCandles ≥ MIN_IMPULSE_CANDLES` impulsiveness test. -/
def candlesC4 : List Candle :=
  [⟨0, 9, 9, 9, 9⟩, ⟨1, 9, 9, 9, 9⟩, ⟨2, 8, 8, 8, 8⟩, ⟨3, 7, 7, 7, 7⟩,
   ⟨4, 8, 8, 8, 8⟩, ⟨5, 9, 9, 9, 9⟩, ⟨6, 10, 10, 10, 10⟩]

/-- A long position: entry 100, stop 95, target 110, quantity 1. -/
def posC3 : Backtest.Position :=
  ⟨Bias.LONG, 100, 95, 110, 1, Module.CONT, ⟨TFName.H2, 0⟩, 0⟩

/-- A bar whose low (90) pierces `posC3`'s stop and whose high (120) pierces
its target, while its close (100) touches neither. -/
def barC3 : Candle := ⟨50, 100, 120, 90, 100⟩

/-- A backtest state holding `posC3` open. -/
def sC3 : Backtest.BTState := ⟨10000, some posC3, [], 1, some 0, 0, []⟩

/-- A signal source producing a continuation-long signal whose HTF candle
low is 95 (giving stop 95). -/
def sigC7 : Int → Option Backtest.HTFSig :=
  fun _ => some ⟨Module.CONT, Bias.LONG, ⟨-7200, 96, 101, 95, 97⟩, ⟨100, 105, 95⟩, 50, TFName.H2⟩

/-- Two 5-minute bars; the latest closes at 100 after opening at 99, so the
execution-timeframe bias agrees with `sigC7`'s long bias and the entry
price is 100. -/
def csC7 : List Candle := [⟨0, 1, 1, 1, 1⟩, ⟨100, 99, 101, 98, 100⟩]

/-- A full 1000-bar buffer with epochs `0, …, 999`. -/
def buf1000 : List Candle := (List.range 1000).map (fun i => ⟨(i : Int), 1, 1, 1, 1⟩)

/-- A small strictly increasing two-bar buffer. -/
def bufW : List Candle := [⟨0, 1, 1, 1, 1⟩, ⟨5, 1, 1, 1, 1⟩]

/-- The position opened from `sigC7`/`csC7`: long at 100, stop 95,
target 110, quantity 20. -/
def pW : Backtest.Position :=
  ⟨Bias.LONG, 100, 95, 110, 20, Module.CONT, ⟨TFName.H2, -7200⟩, 100⟩

/-- A live configuration with loss-pause threshold 2. -/
def cfgW : Live.Config := ⟨1 / 100, 2, 2, 20, 50⟩

/-- A paused live state after two consecutive losses, flat, empty buffers. -/
def sW : Live.LiveState := ⟨10000, 1, 2, true, none, fun _ => []⟩

/-! ### C8: engulfing definitions and Scenario B -/

/-- C8: `isBullishEngulfing(curr, prev)` holds iff curr is a bullish body,
prev a bearish body, and curr's body contains prev's close-to-open range,
with `isBearishEngulfing` the exact mirror; Scenario B's bars form a bullish
engulfing under both the body-only and the full-range variant. -/
theorem claim_C8 :
    (∀ curr prev : Candle, isBullishEngulf curr prev = true ↔
      (curr.opn < curr.close ∧ prev.close < prev.opn ∧
        prev.opn ≤ curr.close ∧ curr.opn ≤ prev.close))
  ∧ (∀ curr prev : Candle, isBearishEngulf curr prev = true ↔
      (curr.close < curr.opn ∧ prev.opn < prev.close ∧
        prev.close ≤ curr.opn ∧ curr.close ≤ prev.opn))
  ∧ isBullishEngulf currB prevB = true
  ∧ isBullishEngulfFullRange currB prevB = true := by
  refine ⟨fun curr prev => ?_, fun curr prev => ?_,
      by norm_num [isBullishEngulf, prevB, currB],
      by norm_num [isBullishEngulfFullRange, isBullishEngulf, prevB, currB]⟩ <;>
    simp [isBullishEngulf, isBearishEngulf, and_assoc]

/-! ### C5: swing-pivot window property -/

/-- C5 is false as stated: on seven flat bars with radius 3, index 3 is
classified as a swing High although its high is not strictly greater than
its neighbours' (they are equal), and `detectRawSwings` classifies the same
bar as both a High and a Low pivot in one pass. -/
theorem counterexample_C5 :
    isSwingHigh flat7 3 3 = true
  ∧ isSwingLow flat7 3 3 = true
  ∧ (detectRawSwings flat7).map (fun s => (s.type, s.index)) =
      [(SwingType.H, 3), (SwingType.L, 3)]
  ∧ ¬ ((flat7.getD 2 default).high < (flat7.getD 3 default).high) := by
  decide

/-- C5 (amended): a bar is a High pivot iff it has full window context and
its high is greater than **or equal to** every bar's high in the symmetric
window (ties are allowed, so a bar may also be classified as both a High
and a Low pivot); mirror for Low pivots on lows. -/
theorem claim_C5_amended :
    ∀ (candles : List Candle) (i size : Nat),
      (isSwingHigh candles i size = true ↔
        (size ≤ i ∧ i + size < candles.length ∧
          ∀ k, i - size ≤ k → k ≤ i + size →
            (candles.getD k default).high ≤ (candles.getD i default).high))
    ∧ (isSwingLow candles i size = true ↔
        (size ≤ i ∧ i + size < candles.length ∧
          ∀ k, i - size ≤ k → k ≤ i + size →
            (candles.getD i default).low ≤ (candles.getD k default).low)) := by
  intro candles i size
  constructor
  · unfold isSwingHigh
    split
    · next h =>
      simp only [Bool.false_eq_true, false_iff]
      rintro ⟨h1, h2, -⟩
      omega
    · next h =>
      push_neg at h
      rw [List.all_eq_true]
      constructor
      · intro hall
        refine ⟨by omega, by omega, fun k hk1 hk2 => ?_⟩
        have hd : k - (i - size) < 2 * size + 1 := by omega
        have := hall _ (List.mem_range.mpr hd)
        have hidx : i - size + (k - (i - size)) = k := by omega
        rw [hidx] at this
        simpa using this
      · rintro ⟨h1, h2, hdom⟩ d hd
        rw [List.mem_range] at hd
        have := hdom (i - size + d) (by omega) (by omega)
        simpa using this
  · unfold isSwingLow
    split
    · next h =>
      simp only [Bool.false_eq_true, false_iff]
      rintro ⟨h1, h2, -⟩
      omega
    · next h =>
      push_neg at h
      rw [List.all_eq_true]
      constructor
      · intro hall
        refine ⟨by omega, by omega, fun k hk1 hk2 => ?_⟩
        have hd : k - (i - size) < 2 * size + 1 := by omega
        have := hall _ (List.mem_range.mpr hd)
        have hidx : i - size + (k - (i - size)) = k := by omega
        rw [hidx] at this
        simpa using this
      · rintro ⟨h1, h2, hdom⟩ d hd
        rw [List.mem_range] at hd
        have := hdom (i - size + d) (by omega) (by omega)
        simpa using this

/-- Witness: the amended characterisation evaluated on the flat series. -/
theorem claim_C5_amended_witness :
    isSwingHigh flat7 3 3 = true ↔
      (3 ≤ 3 ∧ 3 + 3 < flat7.length ∧
        ∀ k, 3 - 3 ≤ k → k ≤ 3 + 3 →
          (flat7.getD k default).high ≤ (flat7.getD 3 default).high) :=
  (claim_C5_amended flat7 3 3).1

/-! ### C4: BOS / CHoCH classification against the carried trend -/

/-- C4 is false as stated: running the classifier over `swingsC4`, the first
(downward) break sets the carried trend to bearish; the final swing then
fires an impulsive upward break, and the classifier emits `CHoCH_UP` — not
the `BOS_UP` the claim requires for a bearish carried trend. -/
theorem counterexample_C4 :
    (bosGo candlesC4 ⟨[], none, none, none⟩ [] (swingsC4.take 3)).currentTrend =
      some Trend.bearish
  ∧ (detectBOSFromSwings swingsC4 candlesC4).map (fun e => e.type) =
      [EventType.BOS_DOWN, EventType.CHoCH_UP]
  ∧ EventType.CHoCH_UP ≠ EventType.BOS_UP := by
  decide

/-- C4 (amended): when an impulsive upward structure break fires, the
classifier emits CHoCH_UP if the carried trend state was bearish and BOS_UP
if it was bullish or unknown, then sets the trend state to bullish; the
mirror rule for downward breaks emits CHoCH_DOWN if the trend was bullish
and BOS_DOWN otherwise, then sets the trend state to bearish. -/
theorem claim_C4_amended :
    (∀ (candles : List Candle) (st : BOSState) (prev : List Swing) (s lh pl : Swing),
      s.type = SwingType.H →
      st.lastHighSeen = some lh →
      lh.price < s.price →
      prev.find? (fun w => w.type == SwingType.L) = some pl →
      (MIN_IMPULSE_CANDLES ≤ dirCandlesUp candles pl.index s.index ∨
        MIN_LEG_PTS ≤ s.price - pl.price) →
      (bosStep candles st prev s).currentTrend = some Trend.bullish ∧
      (bosStep candles st prev s).events = st.events ++
        [⟨(if st.currentTrend = some Trend.bearish then EventType.CHoCH_UP
            else EventType.BOS_UP),
          s.time, (candles.getD pl.index default).epoch,
          (candles.getD s.index default).epoch,
          pl.price, s.price, s.price - pl.price,
          dirCandlesUp candles pl.index s.index⟩])
  ∧ (∀ (candles : List Candle) (st : BOSState) (prev : List Swing) (s ll ph : Swing),
      s.type = SwingType.L →
      st.lastLowSeen = some ll →
      s.price < ll.price →
      prev.find? (fun w => w.type == SwingType.H) = some ph →
      (MIN_IMPULSE_CANDLES ≤ dirCandlesDown candles ph.index s.index ∨
        MIN_LEG_PTS ≤ ph.price - s.price) →
      (bosStep candles st prev s).currentTrend = some Trend.bearish ∧
      (bosStep candles st prev s).events = st.events ++
        [⟨(if st.currentTrend = some Trend.bullish then EventType.CHoCH_DOWN
            else EventType.BOS_DOWN),
          s.time, (candles.getD ph.index default).epoch,
          (candles.getD s.index default).epoch,
          ph.price, s.price, ph.price - s.price,
          dirCandlesDown candles ph.index s.index⟩]) := by
  constructor
  · intro candles st prev s lh pl hH hlast hlt hfind himp
    simp only [bosStep, hH, hlast, hfind, if_pos hlt, if_pos himp]
    exact ⟨trivial, trivial⟩
  · intro candles st prev s ll ph hL hlast hlt hfind himp
    simp only [bosStep, hL, hlast, hfind, if_pos hlt, if_pos himp]
    exact ⟨trivial, trivial⟩

/-- Witness: the amended rule applied at a concrete bearish-trend state and
upward break, yielding a `CHoCH_UP` event and a bullish trend. -/
theorem claim_C4_amended_witness :
    (bosStep candlesC4 ⟨[], some ⟨SwingType.H, 1, 10, 1⟩, none, some Trend.bearish⟩
        [⟨SwingType.L, 3, 4, 3⟩] ⟨SwingType.H, 6, 12, 6⟩).currentTrend =
      some Trend.bullish
  ∧ (bosStep candlesC4 ⟨[], some ⟨SwingType.H, 1, 10, 1⟩, none, some Trend.bearish⟩
        [⟨SwingType.L, 3, 4, 3⟩] ⟨SwingType.H, 6, 12, 6⟩).events =
      [] ++ [⟨EventType.CHoCH_UP, 6, (candlesC4.getD 3 default).epoch,
        (candlesC4.getD 6 default).epoch, 4, 12, 12 - 4,
        dirCandlesUp candlesC4 3 6⟩] :=
  claim_C4_amended.1 candlesC4
    ⟨[], some ⟨SwingType.H, 1, 10, 1⟩, none, some Trend.bearish⟩
    [⟨SwingType.L, 3, 4, 3⟩] ⟨SwingType.H, 6, 12, 6⟩
    ⟨SwingType.H, 1, 10, 1⟩ ⟨SwingType.L, 3, 4, 3⟩
    rfl rfl (by norm_num) (by decide) (Or.inl (by decide))

/-! ### C3: stop/target monitoring granularity -/

/-- C3 is false as stated: with a long position (stop 95, target 110) open
and a bar whose low 90 pierces the stop and whose high 120 pierces the
target, but whose close 100 touches neither, `managePosition` leaves the
state completely unchanged — intrabar touches are not detected, because the
exit test reads only the bar's close. -/
theorem counterexample_C3 :
    barC3.low ≤ posC3.stop
  ∧ posC3.target ≤ barC3.high
  ∧ findLatestAtOrBefore [barC3] 50 = some barC3
  ∧ Backtest.managePosition [barC3] sC3 50 = sC3 := by
  decide

/-- C3 (amended): on each new bar close with a position open, `manage`
checks the stop and the target against the bar's **close only** (intrabar
high/low touches are not detected), and when the close touches both levels
the stop is evaluated before the target. -/
theorem claim_C3_amended :
    ∀ (cs : List Candle) (s : Backtest.BTState) (e : Int)
      (p : Backtest.Position) (c5 : Candle),
      s.position = some p →
      findLatestAtOrBefore cs e = some c5 →
      ((p.side = Bias.LONG → p.stop < c5.close → c5.close < p.target →
          Backtest.managePosition cs s e = s)
      ∧ (p.side = Bias.LONG → c5.close ≤ p.stop →
          Backtest.managePosition cs s e =
            { s with
              account := s.account + (p.stop - p.entry) * p.qty,
              trades := s.trades ++ [⟨p, p.stop, Backtest.Reason.STOP,
                (p.stop - p.entry) * p.qty, e⟩],
              consecLosses :=
                if (p.stop - p.entry) * p.qty < 0 then s.consecLosses + 1 else 0,
              position := none })
      ∧ (p.side = Bias.SHORT → p.target < c5.close → c5.close < p.stop →
          Backtest.managePosition cs s e = s)
      ∧ (p.side = Bias.SHORT → p.stop ≤ c5.close →
          Backtest.managePosition cs s e =
            { s with
              account := s.account + (p.entry - p.stop) * p.qty,
              trades := s.trades ++ [⟨p, p.stop, Backtest.Reason.STOP,
                (p.entry - p.stop) * p.qty, e⟩],
              consecLosses :=
                if (p.entry - p.stop) * p.qty < 0 then s.consecLosses + 1 else 0,
              position := none })) := by
  intro cs s e p c5 hpos hfind
  refine ⟨?_, ?_, ?_, ?_⟩
  · intro hside h1 h2
    simp [Backtest.managePosition, hpos, hfind, hside,
      not_le.mpr h1, not_le.mpr h2]
  · intro hside h1
    simp [Backtest.managePosition, hpos, hfind, hside, h1]
  · intro hside h1 h2
    have hne : p.side ≠ Bias.LONG := by rw [hside]; intro hc; cases hc
    simp [Backtest.managePosition, hpos, hfind, hne,
      not_le.mpr h1, not_le.mpr h2]
  · intro hside h1
    have hne : p.side ≠ Bias.LONG := by rw [hside]; intro hc; cases hc
    simp [Backtest.managePosition, hpos, hfind, hne, h1]

/-- Witness: the amended behaviour at concrete inputs — the close strictly
between stop and target leaves the state untouched even though the bar's
low/high pierce both levels. -/
theorem claim_C3_amended_witness :
    Backtest.managePosition [barC3] sC3 50 = sC3 :=
  (claim_C3_amended [barC3] sC3 50 posC3 barC3 rfl (by decide)).1
    rfl (by norm_num [posC3, barC3]) (by norm_num [posC3, barC3])

/-! ### C9: candle append-or-replace -/

/-- C9 is false as stated: on a full 1000-bar buffer, merging a bar with a
fresh epoch (2000, distinct from the last epoch 999) evicts the oldest bar,
so the series length stays 1000 instead of increasing by exactly one. -/
theorem counterexample_C9 :
    buf1000.length = 1000
  ∧ buf1000.getLast? = some ⟨999, 1, 1, 1, 1⟩
  ∧ ((999 : Int) = 2000 → False)
  ∧ (Live.mergeCandle buf1000 ⟨2000, 1, 1, 1, 1⟩).1.length = 1000
  ∧ ((Live.mergeCandle buf1000 ⟨2000, 1, 1, 1, 1⟩).1.length =
      buf1000.length + 1 → False) := by
  set_option maxRecDepth 100000 in decide

/-- C9 (amended): replacing the current in-progress bar (same epoch) never
changes the series length; appending a bar with a new epoch increases the
length by exactly one **unless** the buffer already holds 1000 bars, in
which case the oldest bar is evicted and the length is unchanged; and when
the incoming epoch is at least the last epoch, a strictly increasing,
duplicate-free epoch ordering is preserved. -/
theorem claim_C9_amended :
    ∀ (buf : List Candle) (c last : Candle), buf.getLast? = some last →
      ((last.epoch = c.epoch → (Live.mergeCandle buf c).1.length = buf.length)
      ∧ (last.epoch ≠ c.epoch →
          (Live.mergeCandle buf c).1.length =
            if buf.length + 1 ≤ 1000 then buf.length + 1 else buf.length)
      ∧ (List.Pairwise (fun a b : Candle => a.epoch < b.epoch) buf →
          last.epoch ≤ c.epoch →
          List.Pairwise (fun a b : Candle => a.epoch < b.epoch)
            (Live.mergeCandle buf c).1)) := by
  intro buf c last hlast
  have hne : buf ≠ [] := by
    intro h
    rw [h] at hlast
    cases hlast
  have hsplit : buf.dropLast ++ [last] = buf :=
    List.dropLast_append_getLast? last hlast
  have hlen : buf.dropLast.length = buf.length - 1 := List.length_dropLast buf
  have hlenpos : 1 ≤ buf.length := by
    cases buf with
    | nil => exact absurd rfl hne
    | cons a l => simp
  refine ⟨?_, ?_, ?_⟩
  · intro heq
    simp only [Live.mergeCandle, hlast, Option.any_some, beq_iff_eq, heq, if_pos rfl]
    simp [hlen]
    omega
  · intro hneq
    simp only [Live.mergeCandle, hlast, Option.any_some, beq_iff_eq, if_neg hneq]
    by_cases hcap : 1000 < (buf ++ [c]).length
    · rw [if_pos hcap]
      have hcap' : ¬ (buf.length + 1 ≤ 1000) := by simp at hcap; omega
      rw [if_neg hcap']
      simp only [List.length_tail, List.length_append, List.length_singleton]
      omega
    · rw [if_neg hcap]
      have hcap' : buf.length + 1 ≤ 1000 := by simp at hcap; omega
      rw [if_pos hcap']
      simp
  · intro hpair hle
    have hdl : ∀ x ∈ buf.dropLast, x.epoch < last.epoch := by
      intro x hx
      have := (List.pairwise_append.mp (hsplit ▸ hpair)).2.2
      exact this x hx last (List.mem_singleton.mpr rfl)
    by_cases heq : last.epoch = c.epoch
    · simp only [Live.mergeCandle, hlast, Option.any_some, beq_iff_eq, heq, if_pos rfl]
      refine List.pairwise_append.mpr ⟨?_, List.pairwise_singleton _ _, ?_⟩
      · exact (List.pairwise_append.mp (hsplit ▸ hpair)).1
      · intro x hx b hb
        rw [List.mem_singleton.mp hb]
        rw [← heq]
        exact hdl x hx
    · simp only [Live.mergeCandle, hlast, Option.any_some, beq_iff_eq, if_neg heq]
      have hall : ∀ x ∈ buf, x.epoch < c.epoch := by
        intro x hx
        rcases (List.mem_append.mp (hsplit ▸ hx)) with hx' | hx'
        · exact lt_of_lt_of_le (hdl x hx') hle
        · rw [List.mem_singleton.mp hx']
          exact lt_of_le_of_ne hle heq
      have hpair' : List.Pairwise (fun a b : Candle => a.epoch < b.epoch) (buf ++ [c]) :=
        List.pairwise_append.mpr ⟨hpair, List.pairwise_singleton _ _,
          fun x hx b hb => (List.mem_singleton.mp hb) ▸ hall x hx⟩
      split
      · exact hpair'.sublist (List.tail_sublist _)
      · exact hpair'

/-- Witness: the amended merge behaviour at a two-bar buffer — an in-place
replacement keeps the length at 2, an append of a fresh epoch follows the
capped-length formula, and the strictly increasing epoch ordering is
preserved. -/
theorem claim_C9_amended_witness :
    (Live.mergeCandle bufW ⟨5, 2, 2, 2, 2⟩).1.length = bufW.length
  ∧ (Live.mergeCandle bufW ⟨9, 2, 2, 2, 2⟩).1.length =
      (if bufW.length + 1 ≤ 1000 then bufW.length + 1 else bufW.length)
  ∧ List.Pairwise (fun a b : Candle => a.epoch < b.epoch)
      (Live.mergeCandle bufW ⟨9, 2, 2, 2, 2⟩).1 :=
  ⟨(claim_C9_amended bufW ⟨5, 2, 2, 2, 2⟩ ⟨5, 1, 1, 1, 1⟩ rfl).1 rfl,
   (claim_C9_amended bufW ⟨9, 2, 2, 2, 2⟩ ⟨5, 1, 1, 1, 1⟩ rfl).2.1 (by decide),
   (claim_C9_amended bufW ⟨9, 2, 2, 2, 2⟩ ⟨5, 1, 1, 1, 1⟩ rfl).2.2
     (by decide) (by decide)⟩

/-! ### Helper lemmas about the backtester's operations -/

namespace Backtest

theorem tryEnter_account (sig : Int → Option HTFSig) (cs : List Candle)
    (s : BTState) (e : Int) : (tryEnterTrade sig cs s e).account = s.account := by
  simp only [tryEnterTrade]
  repeat' split
  all_goals rfl

theorem tryEnter_trades (sig : Int → Option HTFSig) (cs : List Candle)
    (s : BTState) (e : Int) : (tryEnterTrade sig cs s e).trades = s.trades := by
  simp only [tryEnterTrade]
  repeat' split
  all_goals rfl

theorem tryEnter_consec (sig : Int → Option HTFSig) (cs : List Candle)
    (s : BTState) (e : Int) :
    (tryEnterTrade sig cs s e).consecLosses = s.consecLosses := by
  simp only [tryEnterTrade]
  repeat' split
  all_goals rfl

theorem manage_ledger (cs : List Candle) (s : BTState) (e : Int) :
    (managePosition cs s e).account - ledger (managePosition cs s e) =
      s.account - ledger s := by
  simp only [managePosition]
  repeat' split
  all_goals simp [ledger]

theorem forceClose_ledger (cs : List Candle) (s : BTState) :
    (forceClose cs s).account - ledger (forceClose cs s) =
      s.account - ledger s := by
  simp only [forceClose]
  repeat' split
  all_goals simp [ledger]

theorem btStep_ledger (sig : Int → Option HTFSig) (cs : List Candle)
    (s : BTState) (c : Candle) :
    (btStep sig cs s c).account - ledger (btStep sig cs s c) =
      s.account - ledger s := by
  simp only [btStep]
  split
  · exact manage_ledger cs s c.epoch
  · rw [tryEnter_account, show ledger (tryEnterTrade sig cs
        (managePosition cs s c.epoch) c.epoch) =
        ledger (managePosition cs s c.epoch) from by rw [ledger, ledger, tryEnter_trades]]
    exact manage_ledger cs s c.epoch

theorem tryEnterTrade_eq (sig : Int → Option HTFSig) (cs : List Candle)
    (s : BTState) (e : Int) :
    tryEnterTrade sig cs s e =
      if s.position.isSome then s else enterCore sig cs (rollDay s e) e := rfl

theorem rollDay_fields (s : BTState) (e : Int) :
    (rollDay s e).account = s.account
  ∧ (rollDay s e).position = s.position
  ∧ (rollDay s e).trades = s.trades
  ∧ (rollDay s e).consecLosses = s.consecLosses
  ∧ (rollDay s e).executedSignals = s.executedSignals
  ∧ (rollDay s e).dailyTrades =
      (if s.lastTradeDay ≠ some (getYYYYMMDD e) then 0 else s.dailyTrades) := by
  unfold rollDay
  split
  all_goals simp_all

/-- Complete case analysis of `enterCore`: it either returns the state
unchanged, records a fresh signal key and opens a position with the sizing
formula, or records a fresh signal key and silently rejects the entry at
the sizing step. -/
theorem enterCore_spec (sig : Int → Option HTFSig) (cs : List Candle)
    (t : BTState) (e : Int) :
    enterCore sig cs t e = t
  ∨ (∃ p : Position,
      enterCore sig cs t e =
        { t with
          position := some p,
          executedSignals := posKey p :: t.executedSignals,
          dailyTrades := t.dailyTrades + 1 }
      ∧ posKey p ∉ t.executedSignals
      ∧ 0 < |p.entry - p.stop|
      ∧ p.qty = t.account * RISK_PCT / |p.entry - p.stop|
      ∧ 0 < p.qty
      ∧ p.timeEnter = e)
  ∨ (∃ k : SigKey, k ∉ t.executedSignals ∧
      enterCore sig cs t e = { t with executedSignals := k :: t.executedSignals }) := by
  simp only [enterCore]
  repeat' split
  all_goals first
    | exact Or.inl rfl
    | (refine Or.inr (Or.inr ⟨_, ?_, rfl⟩); assumption)
    | (refine Or.inr (Or.inl ⟨_, rfl, ?_, ?_, rfl, ?_, rfl⟩) <;>
        first
          | assumption
          | (apply not_le.mp; assumption))

end Backtest

/-! ### C7: position sizing and silent rejection -/

/-- C7: on any flat state, an entry attempt never changes the account, the
ledger or the loss streak; any position it opens has a strictly positive
risk-per-unit and quantity `accountEquity × riskFraction / |entry − stop|`;
when no position is opened the attempt leaves the daily trade counter at its
date-rollover value (nothing is incremented and no error is raised — the
embedding is a total function); and at equity 10000, riskFraction 0.01,
entry 100, stop 95 the opened quantity is exactly 20. -/
theorem claim_C7 :
    (∀ (sig : Int → Option Backtest.HTFSig) (cs : List Candle)
        (s : Backtest.BTState) (e : Int), s.position = none →
      (Backtest.tryEnterTrade sig cs s e).account = s.account
      ∧ (Backtest.tryEnterTrade sig cs s e).trades = s.trades
      ∧ (Backtest.tryEnterTrade sig cs s e).consecLosses = s.consecLosses
      ∧ (∀ p, (Backtest.tryEnterTrade sig cs s e).position = some p →
          0 < |p.entry - p.stop|
          ∧ p.qty = s.account * Backtest.RISK_PCT / |p.entry - p.stop|
          ∧ 0 < p.qty)
      ∧ ((Backtest.tryEnterTrade sig cs s e).position = none →
          (Backtest.tryEnterTrade sig cs s e).dailyTrades =
            if s.lastTradeDay ≠ some (Backtest.getYYYYMMDD e) then 0
            else s.dailyTrades))
  ∧ (Backtest.tryEnterTrade sigC7 csC7 (Backtest.initState 10000) 100).position.map
      (fun p => (p.entry, p.stop, p.qty)) = some (100, 95, 20) := by
  constructor
  · intro sig cs s e hpos
    have hiso : s.position.isSome = false := by rw [hpos]; rfl
    have heq : Backtest.tryEnterTrade sig cs s e =
        Backtest.enterCore sig cs (Backtest.rollDay s e) e := by
      rw [Backtest.tryEnterTrade_eq, hiso]
      rfl
    obtain ⟨ha, hp, ht, hc, hx, hd⟩ := Backtest.rollDay_fields s e
    refine ⟨Backtest.tryEnter_account sig cs s e,
      Backtest.tryEnter_trades sig cs s e,
      Backtest.tryEnter_consec sig cs s e, ?_, ?_⟩
    · intro p hsome
      rw [heq] at hsome
      rcases Backtest.enterCore_spec sig cs (Backtest.rollDay s e) e with
        h | ⟨q, hq, _, hqr, hqf, hqp, _⟩ | ⟨k, _, hk⟩
      · rw [h, hp, hpos] at hsome
        cases hsome
      · rw [hq] at hsome
        simp only at hsome
        cases hsome
        exact ⟨hqr, by rw [hqf, ha], hqp⟩
      · rw [hk, hp, hpos] at hsome
        cases hsome
    · intro hnone
      rw [heq] at hnone ⊢
      rcases Backtest.enterCore_spec sig cs (Backtest.rollDay s e) e with
        h | ⟨q, hq, -⟩ | ⟨k, -, hk⟩
      · rw [h] at hnone ⊢
        rw [hd]
      · rw [hq] at hnone
        simp at hnone
      · rw [hk] at hnone ⊢
        simp only
        rw [hd]
  · have : Backtest.tryEnterTrade sigC7 csC7 (Backtest.initState 10000) 100 =
        Backtest.enterCore sigC7 csC7
          (Backtest.rollDay (Backtest.initState 10000) 100) 100 := by
      rw [Backtest.tryEnterTrade_eq]
      rfl
    have hroll : Backtest.rollDay (Backtest.initState 10000) 100 =
        ⟨10000, none, [], 0, some 0, 0, []⟩ := by
      simp [Backtest.rollDay, Backtest.initState, Backtest.getYYYYMMDD]
    rw [this, hroll]
    norm_num [Backtest.enterCore, sigC7, csC7,
      findLatestAtOrBefore, findLatestGo, Backtest.getYYYYMMDD,
      Backtest.MAX_TRADES_PER_DAY, Backtest.RISK_PCT, Backtest.RR_TARGET]

/-! ### C1: at most one open position -/

/-- C1: the runner processes each bar by running `manage` before
`tryEnter`; `tryEnter` is a no-op whenever a position is already open; and
at every point of a simulated run the state holds at most one open
position (the open-position slot is a single nullable variable). -/
theorem claim_C1 :
    (∀ (sig : Int → Option Backtest.HTFSig) (cs : List Candle)
        (s : Backtest.BTState) (e : Int),
      s.position.isSome = true → Backtest.tryEnterTrade sig cs s e = s)
  ∧ (∀ (sig : Int → Option Backtest.HTFSig) (cs : List Candle)
        (s : Backtest.BTState) (c : Candle),
      Backtest.btStep sig cs s c =
        (let s1 := Backtest.managePosition cs s c.epoch
         if s1.position.isSome then s1 else Backtest.tryEnterTrade sig cs s1 c.epoch))
  ∧ (∀ (sig : Int → Option Backtest.HTFSig) (cs : List Candle)
        (s0 : Backtest.BTState) (l : List Candle),
      (l.foldl (Backtest.btStep sig cs) s0).position.toList.length ≤ 1) := by
  refine ⟨?_, fun _ _ _ _ => rfl, ?_⟩
  · intro sig cs s e h
    rw [Backtest.tryEnterTrade_eq, h]
    rfl
  · intro sig cs s0 l
    cases (l.foldl (Backtest.btStep sig cs) s0).position <;> simp

/-- Witness: with a position already open, a concrete entry attempt leaves
the state unchanged. -/
theorem claim_C1_witness :
    Backtest.tryEnterTrade (fun _ => none) [] sC3 0 = sC3 :=
  claim_C1.1 (fun _ => none) [] sC3 0 rfl

/-! ### C2: the ledger always balances -/

/-- C2: for every run of the simulator (any signal source, any candle
series, any starting balance), the final account equity equals the initial
equity plus the sum of `pnl` over all ledger records, the end-of-data force
close included. -/
theorem claim_C2 :
    ∀ (sig : Int → Option Backtest.HTFSig) (cs : List Candle) (A : ℚ),
      (Backtest.runBacktest sig cs (Backtest.initState A)).account =
        A + ((Backtest.runBacktest sig cs (Backtest.initState A)).trades.map
              (fun t => t.pnl)).sum := by
  intro sig cs A
  have key : ∀ (l : List Candle) (s : Backtest.BTState),
      (l.foldl (Backtest.btStep sig cs) s).account -
        Backtest.ledger (l.foldl (Backtest.btStep sig cs) s) =
      s.account - Backtest.ledger s := by
    intro l
    induction l with
    | nil => intro s; rfl
    | cons c l ih =>
      intro s
      simp only [List.foldl_cons]
      rw [ih, Backtest.btStep_ledger]
  have h1 := Backtest.forceClose_ledger cs (cs.foldl (Backtest.btStep sig cs)
    (Backtest.initState A))
  have h2 := key cs (Backtest.initState A)
  have h0 : Backtest.ledger (Backtest.initState A) = 0 := rfl
  have h3 : (Backtest.initState A).account = A := rfl
  unfold Backtest.runBacktest
  have hgoal : ((Backtest.forceClose cs (cs.foldl (Backtest.btStep sig cs)
        (Backtest.initState A))).trades.map (fun t => t.pnl)).sum =
      Backtest.ledger (Backtest.forceClose cs (cs.foldl (Backtest.btStep sig cs)
        (Backtest.initState A))) := rfl
  rw [hgoal]
  linarith

/-! ### C10: one entry per higher-timeframe signal key -/

namespace Backtest

theorem manage_keys (cs : List Candle) (s : BTState) (e : Int) :
    allKeys (managePosition cs s e) = allKeys s
  ∧ (managePosition cs s e).executedSignals = s.executedSignals := by
  simp only [managePosition]
  repeat' split
  all_goals simp_all [allKeys, tradeKey]

theorem forceClose_keys (cs : List Candle) (s : BTState) :
    allKeys (forceClose cs s) = allKeys s
  ∧ (forceClose cs s).executedSignals = s.executedSignals := by
  simp only [forceClose]
  repeat' split
  all_goals simp_all [allKeys, tradeKey]

theorem enterCore_keys (sig : Int → Option HTFSig) (cs : List Candle)
    (t : BTState) (e : Int) (h : KeysGood t) : KeysGood (enterCore sig cs t e) := by
  rcases enterCore_spec sig cs t e with
    heq | ⟨p, heq, hnot, -, -, -, -⟩ | ⟨k, hnot, heq⟩
  · rw [heq]; exact h
  · rw [heq]
    obtain ⟨hnd, hsub⟩ := h
    have hmapsub : ∀ k ∈ t.trades.map tradeKey, k ∈ t.executedSignals := by
      intro k hk
      exact hsub k (List.mem_append.mpr (Or.inl hk))
    constructor
    · simp only [allKeys, Option.toList_some, List.map_cons, List.map_nil]
      rw [List.nodup_append]
      refine ⟨?_, List.nodup_singleton _, ?_⟩
      · exact hnd.of_append_left
      · intro k hk
        simp only [List.mem_singleton]
        intro hkp
        exact hnot (hkp ▸ hmapsub k hk)
    · intro k hk
      simp only [allKeys, Option.toList_some, List.map_cons, List.map_nil] at hk
      rcases List.mem_append.mp hk with hk | hk
      · exact List.mem_cons_of_mem _ (hmapsub k hk)
      · simp only [List.mem_singleton] at hk
        exact hk ▸ List.mem_cons_self _ _
  · rw [heq]
    obtain ⟨hnd, hsub⟩ := h
    exact ⟨hnd, fun k hk => List.mem_cons_of_mem _ (hsub k hk)⟩

theorem tryEnter_keys (sig : Int → Option HTFSig) (cs : List Candle)
    (s : BTState) (e : Int) (h : KeysGood s) : KeysGood (tryEnterTrade sig cs s e) := by
  rw [tryEnterTrade_eq]
  split
  · exact h
  · have hroll : KeysGood (rollDay s e) := by
      unfold KeysGood allKeys at h ⊢
      unfold rollDay
      split <;> simp_all
    exact enterCore_keys sig cs (rollDay s e) e hroll

theorem btStep_keys (sig : Int → Option HTFSig) (cs : List Candle)
    (s : BTState) (c : Candle) (h : KeysGood s) : KeysGood (btStep sig cs s c) := by
  have hm : KeysGood (managePosition cs s c.epoch) := by
    obtain ⟨h1, h2⟩ := manage_keys cs s c.epoch
    exact ⟨h1 ▸ h.1, fun k hk => h2 ▸ h.2 k (h1 ▸ hk)⟩
  simp only [btStep]
  split
  · exact hm
  · exact tryEnter_keys sig cs _ c.epoch hm

end Backtest

/-- C10: over an entire simulated run, the set of higher-timeframe signal
keys of all entries (closed ledger records plus any still-open position) is
duplicate-free — at most one entry per key; and whenever a flat entry
attempt opens a position, its key was not yet in `executedSignals` and is
recorded there by the attempt, so later evaluations of the same key are
rejected. -/
theorem claim_C10 :
    (∀ (sig : Int → Option Backtest.HTFSig) (cs : List Candle) (A : ℚ)
        (l : List Candle),
      (Backtest.allKeys (l.foldl (Backtest.btStep sig cs)
        (Backtest.initState A))).Nodup
      ∧ (Backtest.allKeys (Backtest.runBacktest sig cs
          (Backtest.initState A))).Nodup)
  ∧ (∀ (sig : Int → Option Backtest.HTFSig) (cs : List Candle)
        (s : Backtest.BTState) (e : Int) (p : Backtest.Position),
      s.position = none →
      (Backtest.tryEnterTrade sig cs s e).position = some p →
        Backtest.posKey p ∉ s.executedSignals
        ∧ Backtest.posKey p ∈ (Backtest.tryEnterTrade sig cs s e).executedSignals) := by
  constructor
  · intro sig cs A l
    have hinit : Backtest.KeysGood (Backtest.initState A) := by
      constructor
      · simp [Backtest.allKeys, Backtest.initState]
      · intro k hk
        simp [Backtest.allKeys, Backtest.initState] at hk
    have key : ∀ (l' : List Candle) (s : Backtest.BTState), Backtest.KeysGood s →
        Backtest.KeysGood (l'.foldl (Backtest.btStep sig cs) s) := by
      intro l'
      induction l' with
      | nil => intro s hs; exact hs
      | cons c l' ih =>
        intro s hs
        simp only [List.foldl_cons]
        exact ih _ (Backtest.btStep_keys sig cs s c hs)
    refine ⟨(key l _ hinit).1, ?_⟩
    unfold Backtest.runBacktest
    obtain ⟨h1, -⟩ := Backtest.forceClose_keys cs
      (cs.foldl (Backtest.btStep sig cs) (Backtest.initState A))
    rw [h1]
    exact (key cs _ hinit).1
  · intro sig cs s e p hpos hsome
    have hiso : s.position.isSome = false := by rw [hpos]; rfl
    have heq : Backtest.tryEnterTrade sig cs s e =
        Backtest.enterCore sig cs (Backtest.rollDay s e) e := by
      rw [Backtest.tryEnterTrade_eq, hiso]
      rfl
    obtain ⟨-, hp, -, -, hx, -⟩ := Backtest.rollDay_fields s e
    rw [heq] at hsome ⊢
    rcases Backtest.enterCore_spec sig cs (Backtest.rollDay s e) e with
      h | ⟨q, hq, hqn, -, -, -, -⟩ | ⟨k, -, hk⟩
    · rw [h, hp, hpos] at hsome
      cases hsome
    · rw [hq] at hsome ⊢
      simp only at hsome
      cases hsome
      rw [hx] at hqn
      exact ⟨hqn, List.mem_cons_self _ _⟩
    · rw [hk, hp, hpos] at hsome
      cases hsome

/-- Witness: a concrete flat entry attempt leaves account, ledger and loss
streak untouched. -/
theorem claim_C7_witness :
    (Backtest.tryEnterTrade sigC7 csC7 (Backtest.initState 10000) 100).account = 10000
  ∧ (Backtest.tryEnterTrade sigC7 csC7 (Backtest.initState 10000) 100).trades = []
  ∧ (Backtest.tryEnterTrade sigC7 csC7 (Backtest.initState 10000) 100).consecLosses = 0 :=
  ⟨(claim_C7.1 sigC7 csC7 (Backtest.initState 10000) 100 rfl).1,
   (claim_C7.1 sigC7 csC7 (Backtest.initState 10000) 100 rfl).2.1,
   (claim_C7.1 sigC7 csC7 (Backtest.initState 10000) 100 rfl).2.2.1⟩

/-- Witness: a concrete entry records its signal key, previously absent. -/
theorem claim_C10_witness :
    Backtest.posKey pW ∉ (Backtest.initState 10000).executedSignals
  ∧ Backtest.posKey pW ∈
      (Backtest.tryEnterTrade sigC7 csC7 (Backtest.initState 10000) 100).executedSignals :=
  claim_C10.2 sigC7 csC7 (Backtest.initState 10000) 100 pW rfl (by
    have h1 : Backtest.rollDay (Backtest.initState 10000) 100 =
        ⟨10000, none, [], 0, some 0, 0, []⟩ := by
      simp [Backtest.rollDay, Backtest.initState, Backtest.getYYYYMMDD]
    have h2 : Backtest.tryEnterTrade sigC7 csC7 (Backtest.initState 10000) 100 =
        Backtest.enterCore sigC7 csC7 ⟨10000, none, [], 0, some 0, 0, []⟩ 100 := by
      rw [Backtest.tryEnterTrade_eq, ← h1]
      rfl
    rw [h2]
    norm_num [Backtest.enterCore, sigC7, csC7, findLatestAtOrBefore, findLatestGo,
      Backtest.getYYYYMMDD, Backtest.MAX_TRADES_PER_DAY, Backtest.RISK_PCT,
      Backtest.RR_TARGET, pW]
    decide)

/-! ### C6: permanent pause after a loss streak -/

namespace Live

theorem tryEnter_session (cfg : Config) (htfSig : Option HTFSig)
    (etfBias : Option Bias) (s : LiveState) :
    (tryEnterTrade cfg htfSig etfBias s).pausedForSession = s.pausedForSession
  ∧ (tryEnterTrade cfg htfSig etfBias s).consecutiveLosses = s.consecutiveLosses := by
  simp only [tryEnterTrade]
  repeat' split
  all_goals exact ⟨rfl, rfl⟩

theorem tryEnter_paused (cfg : Config) (htfSig : Option HTFSig)
    (etfBias : Option Bias) (s : LiveState) (h : s.pausedForSession = true) :
    tryEnterTrade cfg htfSig etfBias s = s := by
  simp only [tryEnterTrade]
  repeat' split
  all_goals first
    | rfl
    | simp_all

theorem manage_session (cfg : Config) (s : LiveState) :
    (managePositionOn5mClose cfg s).tradesThisSession = s.tradesThisSession
  ∧ (s.pausedForSession = true →
      (managePositionOn5mClose cfg s).pausedForSession = true)
  ∧ (s.position = none → managePositionOn5mClose cfg s = s)
  ∧ ((cfg.lossPauseAfter ≤ s.consecutiveLosses → s.pausedForSession = true) →
      (cfg.lossPauseAfter ≤ (managePositionOn5mClose cfg s).consecutiveLosses →
        (managePositionOn5mClose cfg s).pausedForSession = true)) := by
  simp only [managePositionOn5mClose]
  repeat' split
  all_goals refine ⟨rfl, ?_, ?_, ?_⟩
  all_goals try (intro h; exact h)
  all_goals try (intro h; simp_all)

theorem evaluate_paused (cfg : Config) (htfSig : Option HTFSig)
    (etfBias : Option Bias) (s : LiveState) (h : s.pausedForSession = true) :
    evaluateSignals cfg htfSig etfBias s = s := by
  simp only [evaluateSignals]
  repeat' split
  all_goals first
    | rfl
    | exact tryEnter_paused cfg _ _ s h

theorem evaluate_session (cfg : Config) (htfSig : Option HTFSig)
    (etfBias : Option Bias) (s : LiveState) :
    (evaluateSignals cfg htfSig etfBias s).pausedForSession = s.pausedForSession
  ∧ (evaluateSignals cfg htfSig etfBias s).consecutiveLosses = s.consecutiveLosses := by
  simp only [evaluateSignals]
  repeat' split
  all_goals first
    | exact ⟨rfl, rfl⟩
    | exact tryEnter_session cfg _ _ s

theorem liveStep_paused (cfg : Config) (s : LiveState) (ev : LEvent)
    (h : s.pausedForSession = true) :
    (liveStep cfg s ev).pausedForSession = true
  ∧ (liveStep cfg s ev).tradesThisSession = s.tradesThisSession
  ∧ (s.position = none → (liveStep cfg s ev).position = none) := by
  cases ev with
  | history tf cs htfSig etfBias =>
    simp only [liveStep]
    rw [evaluate_paused cfg htfSig etfBias
      { s with candles := fun t => if t = tf then cs else s.candles t } h]
    exact ⟨h, rfl, fun hp => hp⟩
  | ohlc tf c htfSig etfBias =>
    simp only [liveStep]
    split
    · have h1 : ({ s with candles := fun t =>
          if t = tf then (mergeCandle (s.candles tf) c).1 else s.candles t } :
            LiveState).pausedForSession = true := h
      obtain ⟨hm1, hm2, hm3, -⟩ := manage_session cfg
        { s with candles := fun t =>
            if t = tf then (mergeCandle (s.candles tf) c).1 else s.candles t }
      rw [evaluate_paused cfg htfSig etfBias
        (managePositionOn5mClose cfg
          { s with candles := fun t =>
              if t = tf then (mergeCandle (s.candles tf) c).1 else s.candles t })
        (hm2 h1)]
      refine ⟨hm2 h1, hm1, fun hp => ?_⟩
      rw [hm3 hp, hp]
    · rw [evaluate_paused cfg htfSig etfBias
        { s with candles := fun t =>
            if t = tf then (mergeCandle (s.candles tf) c).1 else s.candles t } h]
      exact ⟨h, rfl, fun hp => hp⟩

theorem liveStep_inv (cfg : Config) (s : LiveState) (ev : LEvent)
    (hinv : cfg.lossPauseAfter ≤ s.consecutiveLosses → s.pausedForSession = true) :
    cfg.lossPauseAfter ≤ (liveStep cfg s ev).consecutiveLosses →
      (liveStep cfg s ev).pausedForSession = true := by
  cases ev with
  | history tf cs htfSig etfBias =>
    simp only [liveStep]
    obtain ⟨he1, he2⟩ := evaluate_session cfg htfSig etfBias
      { s with candles := fun t => if t = tf then cs else s.candles t }
    rw [he1, he2]
    exact hinv
  | ohlc tf c htfSig etfBias =>
    simp only [liveStep]
    split
    · obtain ⟨-, -, -, hm4⟩ := manage_session cfg
        { s with candles := fun t =>
            if t = tf then (mergeCandle (s.candles tf) c).1 else s.candles t }
      obtain ⟨he1, he2⟩ := evaluate_session cfg htfSig etfBias
        (managePositionOn5mClose cfg
          { s with candles := fun t =>
              if t = tf then (mergeCandle (s.candles tf) c).1 else s.candles t })
      rw [he1, he2]
      exact hm4 hinv
    · obtain ⟨he1, he2⟩ := evaluate_session cfg htfSig etfBias
        { s with candles := fun t =>
            if t = tf then (mergeCandle (s.candles tf) c).1 else s.candles t }
      rw [he1, he2]
      exact hinv

end Live

/-- C6: if the pause invariant holds of a state (the streak having reached
the threshold implies the pause flag), then it holds after any further
message sequence — in particular, once the streak reaches `LOSS_PAUSE_AFTER`
the flag is true — and once `pausedForSession` is set it stays set forever,
the session trade counter never moves again, and no position is ever opened
from flat (no further entries). -/
theorem claim_C6 :
    ∀ (cfg : Live.Config) (s : Live.LiveState) (evs : List Live.LEvent),
      (cfg.lossPauseAfter ≤ s.consecutiveLosses → s.pausedForSession = true) →
      ((cfg.lossPauseAfter ≤ (Live.runLive cfg s evs).consecutiveLosses →
          (Live.runLive cfg s evs).pausedForSession = true)
      ∧ (s.pausedForSession = true →
          (Live.runLive cfg s evs).pausedForSession = true
          ∧ (Live.runLive cfg s evs).tradesThisSession = s.tradesThisSession
          ∧ (s.position = none → (Live.runLive cfg s evs).position = none))) := by
  intro cfg s evs
  induction evs generalizing s with
  | nil => exact fun hinv => ⟨hinv, fun hp => ⟨hp, rfl, fun hq => hq⟩⟩
  | cons ev evs ih =>
    intro hinv
    simp only [Live.runLive, List.foldl_cons] at ih ⊢
    constructor
    · exact (ih (Live.liveStep cfg s ev) (Live.liveStep_inv cfg s ev hinv)).1
    · intro hp
      obtain ⟨h1, h2, h3⟩ := Live.liveStep_paused cfg s ev hp
      obtain ⟨-, hrest⟩ := ih (Live.liveStep cfg s ev)
        (Live.liveStep_inv cfg s ev hinv)
      obtain ⟨g1, g2, g3⟩ := hrest h1
      exact ⟨g1, g2.trans h2, fun hq => g3 (h3 hq)⟩

/-- Witness: from a concrete paused state, a further 5-minute bar leaves the
pause latched, the session trade counter unchanged and no position opened. -/
theorem claim_C6_witness :
    (Live.runLive cfgW sW
        [Live.LEvent.ohlc Live.TF.M5 ⟨0, 1, 1, 1, 1⟩ none none]).pausedForSession = true
  ∧ (Live.runLive cfgW sW
        [Live.LEvent.ohlc Live.TF.M5 ⟨0, 1, 1, 1, 1⟩ none none]).tradesThisSession = 1
  ∧ (Live.runLive cfgW sW
        [Live.LEvent.ohlc Live.TF.M5 ⟨0, 1, 1, 1, 1⟩ none none]).position = none :=
  ⟨((claim_C6 cfgW sW [Live.LEvent.ohlc Live.TF.M5 ⟨0, 1, 1, 1, 1⟩ none none]
      (fun _ => rfl)).2 rfl).1,
   ((claim_C6 cfgW sW [Live.LEvent.ohlc Live.TF.M5 ⟨0, 1, 1, 1, 1⟩ none none]
      (fun _ => rfl)).2 rfl).2.1,
   ((claim_C6 cfgW sW [Live.LEvent.ohlc Live.TF.M5 ⟨0, 1, 1, 1, 1⟩ none none]
      (fun _ => rfl)).2 rfl).2.2 rfl⟩

end DeprivBot
